import Mathlib

/-
Verification of the StarlightVocoder plugin core (src/src/lib.rs) against its
natural-language specification.

The audio samples (f32/f64 in the source) are modelled as exact rationals; the
structure of the per-block processing loop is translated directly from
`StarlightVocoder::process` (lib.rs lines 121-163).  The `butterworth` crate
(`Filter::new`, `Filter::bidirectional`) is not part of this repository's
sources; those two operations are modelled from the specification (sections
4.1, 4.3 and the glossary), as marked on each definition below.
-/

namespace Vocoder

/-- Parameter struct mirroring `StlVocoderParams` (lib.rs lines 15-23):
`low_freq_cutoff` and `high_freq_cutoff` are float parameters (modelled as ℚ),
`bands` is an integer parameter. -/
structure StlVocoderParams where
  low_freq_cutoff : ℚ
  high_freq_cutoff : ℚ
  bands : ℤ
  deriving DecidableEq

/-- The registered parameter ranges (lib.rs lines 42-58): both cutoffs are
linear in 0-20000 Hz, `bands` is linear in 1-256. -/
def paramsInRange (p : StlVocoderParams) : Prop :=
  0 ≤ p.low_freq_cutoff ∧ p.low_freq_cutoff ≤ 20000 ∧
  0 ≤ p.high_freq_cutoff ∧ p.high_freq_cutoff ≤ 20000 ∧
  1 ≤ p.bands ∧ p.bands ≤ 256

instance (p : StlVocoderParams) : Decidable (paramsInRange p) := by
  unfold paramsInRange; infer_instance

/-- Default parameter values (lib.rs lines 39-60): low 300, high 3400, 20 bands. -/
def defaultParams : StlVocoderParams := ⟨300, 3400, 20⟩

/-- The plugin state visible to `process` through `&mut self`: the code only
ever reads `self.params` (the commented-out `buffer_config` field is absent). -/
structure PluginState where
  params : StlVocoderParams
  deriving DecidableEq

/-- Return status of a process call, mirroring `nih_plug::ProcessStatus`.
The source returns `ProcessStatus::Normal` (lib.rs line 162). -/
inductive ProcessStatus where
  | error (msg : String)
  | normal
  | tail (samples : ℕ)
  | keepAlive
  deriving DecidableEq

/-- Modelled from the spec: the cutoff specification of the missing
`butterworth` crate.  Only the `Cutoff::BandPass` variant is exercised by the
plugin (lib.rs lines 141-144), so only it is modelled. -/
inductive Cutoff where
  | bandPass (low high : ℚ)
  deriving DecidableEq

/-- Modelled from the spec: second-order digital filter coefficients, the
"coefficients: the numeric parameters defining a digital filter's transfer
function" of the glossary (an order-1 band-pass has a biquad realization). -/
structure Biquad where
  b0 : ℚ
  b1 : ℚ
  b2 : ℚ
  a1 : ℚ
  a2 : ℚ
  deriving DecidableEq

/-- Modelled from the spec: the Filter Designer of section 4.1, a "pure
function of (passband, sample rate, filter order)" producing a stable
band-pass.  The order-1 analog band-pass prototype B·s / (s² + B·s + w0²) is
discretized by the bilinear transform s := 2·(1 - z⁻¹)/(1 + z⁻¹), with the
edge frequencies normalized by the sample rate (the spec fixes only the
contract, not the exact frequency-warping formula). -/
def designBandpass (low high fs : ℚ) : Biquad :=
  let wl := low / fs
  let wh := high / fs
  let bw := wh - wl
  let w0sq := wl * wh
  let a0 := 4 + 2 * bw + w0sq
  { b0 := 2 * bw / a0
    b1 := 0
    b2 := -(2 * bw) / a0
    a1 := (2 * w0sq - 8) / a0
    a2 := (4 - 2 * bw + w0sq) / a0 }

/-- Modelled from the spec: a designed filter is either the "designated
pass-through filter (identity)" of section 4.1 or a band-pass; per the
FilterState row of section 3 the coefficients are opaque and "valid only for
the (passband, sampleRate) pair used to derive them", so a band-pass filter is
identified by its clamped passband and sample rate. -/
inductive Filter where
  | passthrough
  | bandpass (low high fs : ℚ)
  deriving DecidableEq

/-- Clamp a value into the interval [lo, hi]. -/
def clampQ (lo hi x : ℚ) : ℚ := max lo (min x hi)

/-- Modelled from the spec: `butterworth::Filter::new(order, fs, cutoff)`, the
missing crate's designer entry point called at lib.rs lines 137-146.  Per
section 4.1 the edge frequencies are clamped into [0, fs/2] before design
("values violating these must be clamped before design, not passed through"),
and "if clamping still leaves lowHz ≥ highHz ... return a designated
pass-through filter (identity) rather than failing the block"; hence the
designer never fails.  The `Option` mirrors the crate's `Result` return type,
unwrapped at lib.rs line 146; `order` is always 1 in the source and the
band-pass design is the order-1 one. -/
def Filter.new (order : ℕ) (fs : ℚ) (c : Cutoff) : Option Filter :=
  match c with
  | .bandPass low high =>
    if clampQ 0 (fs / 2) low < clampQ 0 (fs / 2) high then
      some (.bandpass (clampQ 0 (fs / 2) low) (clampQ 0 (fs / 2) high) fs)
    else
      some .passthrough

/-- One step of the direct-form biquad recurrence
y[n] = b0·x[n] + b1·x[n-1] + b2·x[n-2] - a1·y[n-1] - a2·y[n-2];
the state is (x[n-1], x[n-2], y[n-1], y[n-2]). -/
def biquadStep (c : Biquad) (s : ℚ × ℚ × ℚ × ℚ) (x : ℚ) : (ℚ × ℚ × ℚ × ℚ) × ℚ :=
  let y := c.b0 * x + c.b1 * s.1 + c.b2 * s.2.1 - c.a1 * s.2.2.1 - c.a2 * s.2.2.2
  ((x, s.1, y, s.2.2.1), y)

/-- Run the biquad recurrence over a sample list from a given state. -/
def applyIIRFrom (c : Biquad) (s : ℚ × ℚ × ℚ × ℚ) : List ℚ → List ℚ
  | [] => []
  | x :: xs => (biquadStep c s x).2 :: applyIIRFrom c (biquadStep c s x).1 xs

/-- Causal application of a biquad with zero initial state. -/
def applyIIR (c : Biquad) (xs : List ℚ) : List ℚ := applyIIRFrom c (0, 0, 0, 0) xs

/-- Modelled from the spec: "bidirectional/zero-phase filtering:
forward-then-backward processing of a complete buffer" (glossary, section
4.3), with zero initial state on each pass. -/
def filtfilt (c : Biquad) (xs : List ℚ) : List ℚ :=
  (applyIIR c (applyIIR c xs).reverse).reverse

/-- Modelled from the spec: `butterworth::Filter::bidirectional`, the missing
crate's zero-phase application called at lib.rs lines 150-151.  The designated
pass-through filter is the identity (section 4.1); a band-pass filter applies
its designed coefficients forward then backward.  The `Option` mirrors the
crate's `Result` return type, unwrapped at lib.rs line 152. -/
def Filter.bidirectional (f : Filter) (xs : List ℚ) : Option (List ℚ) :=
  match f with
  | .passthrough => some xs
  | .bandpass low high fs => some (filtfilt (designBandpass low high fs) xs)

/-- The number of sample positions the loop over `buffer.iter_samples()`
visits: the per-channel sample count of the host buffer. -/
def numSamples (buf : List (List ℚ)) : ℕ := (buf.headD []).length

/-- The per-frame channel-sample vector collected at lib.rs line 135:
`buffer.iter_samples()` yields, for sample index `i`, one sample per channel;
`none` models the out-of-bounds access that occurs when a channel is shorter
than the buffer's sample count. -/
def frameAt (buf : List (List ℚ)) (i : ℕ) : Option (List ℚ) :=
  match buf with
  | [] => some []
  | ch :: rest =>
    match ch.get? i with
    | none => none
    | some x =>
      match frameAt rest i with
      | none => none
      | some xs => some (x :: xs)

/-- The write-back loop at lib.rs lines 157-159: `*samples_f32[i] = filter_res[i]`
for every index `i` of `filter_res`; `none` models the panic of an
out-of-bounds index into `samples_f32`. -/
def writeBack (dst src : List ℚ) : Option (List ℚ) :=
  if src.length ≤ dst.length then some (src ++ dst.drop src.length) else none

/-- One iteration of the loop in `StarlightVocoder::process` (lib.rs lines
127-160) applied to one collected frame: construct the band-pass filter from
the low cutoff alone, with upper edge low+300 (the local `q`) and the
hardcoded sample rate 1.0 (lib.rs line 140; the `buffer_config.sample_rate`
argument is commented out at line 139), run it bidirectionally over the frame
vector, and write the result back over the frame. -/
def processFrame (p : StlVocoderParams) (xs : List ℚ) : Option (List ℚ) :=
  (Filter.new 1 1 (Cutoff.bandPass p.low_freq_cutoff (p.low_freq_cutoff + 300))).bind
    fun f => (f.bidirectional xs).bind fun res => writeBack xs res

/-- One step of the loop of `process`: propagate a fault from collecting the
frame (before any filter construction), from the frame's processing (after
the one filter construction of that iteration), or from the remaining
iterations; the second component counts `Filter::new` invocations. -/
def frameStep (pp : List ℚ → Option (List ℚ)) :
    Option (List ℚ) → Option (List (List ℚ)) × ℕ → Option (List (List ℚ)) × ℕ
  | none, _ => (none, 0)
  | some xs, rest =>
    match pp xs with
    | none => (none, 1)
    | some ys =>
      match rest with
      | (none, c) => (none, c + 1)
      | (some outs, c) => (some (ys :: outs), c + 1)

/-- The whole loop of `process` over the sample indices, together with the
number of `Filter::new` invocations performed (the source constructs the
filter afresh inside the loop body, once per visited frame). -/
def framesLoop (p : StlVocoderParams) (buf : List (List ℚ)) :
    List ℕ → Option (List (List ℚ)) × ℕ
  | [] => (some [], 0)
  | i :: rest =>
    frameStep (processFrame p) (frameAt buf i) (framesLoop p buf rest)

/-- Reassemble the host buffer after the loop: channel `c` receives the `c`-th
entry of each processed frame at the corresponding sample index (the writes go
through the per-frame `&mut f32` references), and keeps any samples beyond the
visited frames unchanged. -/
def writeBackBuf (outFrames : List (List ℚ)) : List (List ℚ) → ℕ → List (List ℚ)
  | [], _ => []
  | ch :: rest, c =>
    ((outFrames.map fun fr => fr.getD c 0) ++ ch.drop outFrames.length) ::
      writeBackBuf outFrames rest (c + 1)

/-- Conclusion of a `process` call: if the loop completed, the buffer is
rewritten and the call returns `ProcessStatus::Normal` (lib.rs line 162); a
fault in the loop has no return value. -/
def finishProcess (st : PluginState) (buf : List (List ℚ)) :
    Option (List (List ℚ)) × ℕ → Option (PluginState × List (List ℚ) × ProcessStatus)
  | (some outFrames, _) => some (st, writeBackBuf outFrames buf 0, ProcessStatus.normal)
  | (none, _) => none

/-- Shallow embedding of `StarlightVocoder::process` (lib.rs lines 121-163).
The host supplies the mutable plugin state, the current sample rate and the
buffer; the call returns the final state, the rewritten buffer and the
returned `ProcessStatus` (always `Normal`, lib.rs line 162), or `none` when
one of the `unwrap`s or a buffer access faults. -/
def process (st : PluginState) (sr : ℚ) (buf : List (List ℚ)) :
    Option (PluginState × List (List ℚ) × ProcessStatus) :=
  finishProcess st buf (framesLoop st.params buf (List.range (numSamples buf)))

/-- The number of filter-coefficient computations (`Filter::new` calls)
performed by one `process` call. -/
def processDesignCount (st : PluginState) (sr : ℚ) (buf : List (List ℚ)) : ℕ :=
  (framesLoop st.params buf (List.range (numSamples buf))).2

/-- A well-formed host block: every channel has the block's sample count
(AudioBlock invariant of section 3, "all equal length n"). -/
def wellFormed (buf : List (List ℚ)) : Prop :=
  ∀ ch ∈ buf, ch.length = numSamples buf

instance (buf : List (List ℚ)) : Decidable (wellFormed buf) := by
  unfold wellFormed; infer_instance

attribute [local semireducible] Rat.mul Rat.inv Rat.add Rat.sub

theorem applyIIRFrom_length (c : Biquad) (xs : List ℚ) :
    ∀ s, (applyIIRFrom c s xs).length = xs.length := by
  induction xs with
  | nil => intro s; rfl
  | cons x xs ih => intro s; simp [applyIIRFrom, ih]

theorem filtfilt_length (c : Biquad) (xs : List ℚ) :
    (filtfilt c xs).length = xs.length := by
  simp [filtfilt, applyIIR, applyIIRFrom_length]

theorem bidirectional_some (f : Filter) (xs : List ℚ) :
    ∃ ys, f.bidirectional xs = some ys ∧ ys.length = xs.length := by
  cases f with
  | passthrough => exact ⟨xs, rfl, rfl⟩
  | bandpass low high fs => exact ⟨_, rfl, filtfilt_length _ _⟩

theorem filterNew_some (o : ℕ) (fs : ℚ) (c : Cutoff) :
    ∃ f, Filter.new o fs c = some f := by
  cases c with
  | bandPass low high =>
    simp only [Filter.new]
    split
    · exact ⟨_, rfl⟩
    · exact ⟨_, rfl⟩

theorem processFrame_some (p : StlVocoderParams) (xs : List ℚ) :
    ∃ ys, processFrame p xs = some ys ∧ ys.length = xs.length := by
  obtain ⟨f, hf⟩ :=
    filterNew_some 1 1 (Cutoff.bandPass p.low_freq_cutoff (p.low_freq_cutoff + 300))
  obtain ⟨res, hres, hlen⟩ := bidirectional_some f xs
  refine ⟨res, ?_, hlen⟩
  rw [processFrame, hf]
  simp only [Option.some_bind]
  rw [hres]
  simp only [Option.some_bind]
  rw [writeBack, hlen]
  simp [List.drop_length]

theorem frameAt_some_of_lt (buf : List (List ℚ)) (i : ℕ)
    (h : ∀ ch ∈ buf, i < ch.length) : ∃ xs, frameAt buf i = some xs := by
  induction buf with
  | nil => exact ⟨[], rfl⟩
  | cons ch rest ih =>
    obtain ⟨xs, hxs⟩ := ih (fun c hc => h c (List.mem_cons_of_mem _ hc))
    have hx : i < ch.length := h ch (List.mem_cons_self _ _)
    obtain ⟨x, hgx⟩ : ∃ x, ch.get? i = some x := by
      cases hg : ch.get? i with
      | none => exact absurd (List.get?_eq_none.mp hg) (by omega)
      | some x => exact ⟨x, rfl⟩
    refine ⟨x :: xs, ?_⟩
    simp only [frameAt, hgx, hxs]

theorem frameAt_bound (buf : List (List ℚ)) (i : ℕ) (xs : List ℚ)
    (h : frameAt buf i = some xs) : ∀ ch ∈ buf, i < ch.length := by
  induction buf generalizing xs with
  | nil => intro ch hch; exact absurd hch (by simp)
  | cons ch rest ih =>
    intro c hc
    simp only [frameAt] at h
    cases hg : ch.get? i with
    | none => rw [hg] at h; exact absurd h (by simp)
    | some x =>
      rw [hg] at h
      cases hr : frameAt rest i with
      | none => rw [hr] at h; exact absurd h (by simp)
      | some ys =>
        rcases List.mem_cons.mp hc with rfl | hc
        · by_contra hle
          rw [List.get?_eq_none.mpr (by omega)] at hg
          exact absurd hg (by simp)
        · exact ih ys hr c hc

theorem framesLoop_some (p : StlVocoderParams) (buf : List (List ℚ))
    (is : List ℕ) (h : ∀ i ∈ is, ∃ xs, frameAt buf i = some xs) :
    ∃ outs, (framesLoop p buf is).1 = some outs := by
  induction is with
  | nil => exact ⟨[], rfl⟩
  | cons i rest ih =>
    obtain ⟨xs, hxs⟩ := h i (List.mem_cons_self _ _)
    obtain ⟨ys, hys, _⟩ := processFrame_some p xs
    obtain ⟨outs, ho⟩ := ih (fun j hj => h j (List.mem_cons_of_mem _ hj))
    rcases hr : framesLoop p buf rest with ⟨o, c⟩
    rw [hr] at ho
    simp only at ho
    subst ho
    refine ⟨ys :: outs, ?_⟩
    rw [framesLoop, hxs, hr]
    simp only [frameStep, hys]

theorem framesLoop_sound (p : StlVocoderParams) (buf : List (List ℚ)) :
    ∀ (is : List ℕ) (outs : List (List ℚ)),
      (framesLoop p buf is).1 = some outs →
      outs.length = is.length ∧ ∀ i ∈ is, ∃ xs, frameAt buf i = some xs := by
  intro is
  induction is with
  | nil =>
    intro outs h
    simp only [framesLoop] at h
    obtain rfl : ([] : List (List ℚ)) = outs := Option.some.inj h
    simp
  | cons i rest ih =>
    intro outs h
    rw [framesLoop] at h
    cases hg : frameAt buf i with
    | none => rw [hg] at h; simp [frameStep] at h
    | some xs =>
      rw [hg] at h
      simp only [frameStep] at h
      cases hp : processFrame p xs with
      | none => simp [hp] at h
      | some ys =>
        simp only [hp] at h
        rcases hr : framesLoop p buf rest with ⟨o, c⟩
        simp only [hr] at h
        cases o with
        | none => simp at h
        | some outs2 =>
          simp at h
          obtain rfl : ys :: outs2 = outs := h
          obtain ⟨hlen, hall⟩ := ih outs2 (by rw [hr])
          refine ⟨by simp [hlen], ?_⟩
          intro j hj
          rcases List.mem_cons.mp hj with rfl | hj
          · exact ⟨xs, hg⟩
          · exact hall j hj

theorem writeBackBuf_map_length (outFrames : List (List ℚ)) :
    ∀ (buf : List (List ℚ)) (c : ℕ),
      (∀ ch ∈ buf, outFrames.length ≤ ch.length) →
      (writeBackBuf outFrames buf c).map List.length = buf.map List.length := by
  intro buf
  induction buf with
  | nil => intro c _; rfl
  | cons ch rest ih =>
    intro c h
    have hch : outFrames.length ≤ ch.length := h ch (List.mem_cons_self _ _)
    simp only [writeBackBuf, List.map_cons, List.length_append, List.length_map,
      List.length_drop, List.cons.injEq]
    exact ⟨by omega, ih (c + 1) (fun d hd => h d (List.mem_cons_of_mem _ hd))⟩

theorem processFrame_congr (p q : StlVocoderParams)
    (h : p.low_freq_cutoff = q.low_freq_cutoff) (xs : List ℚ) :
    processFrame p xs = processFrame q xs := by
  simp only [processFrame, h]

theorem framesLoop_congr (p q : StlVocoderParams) (buf : List (List ℚ))
    (h : p.low_freq_cutoff = q.low_freq_cutoff) :
    ∀ is : List ℕ, framesLoop p buf is = framesLoop q buf is := by
  intro is
  induction is with
  | nil => rfl
  | cons i rest ih =>
    rw [framesLoop, framesLoop, ih, funext (processFrame_congr p q h)]

/-- C1: for every well-formed audio block, every parameter state within the
registered ranges (cutoffs in 0-20000, bands in 1-256) and every host sample
rate, the `process` call completes and returns a result: neither `unwrap`
fires and no buffer access faults.  (The filter construction and the
bidirectional application are the spec-modelled crate operations, which per
section 4.1 clamp and never fail.) -/
theorem C1_process_never_faults (st : PluginState) (sr : ℚ) (buf : List (List ℚ))
    (hp : paramsInRange st.params) (hb : wellFormed buf) :
    ∃ out, process st sr buf = some out := by
  have hall : ∀ i ∈ List.range (numSamples buf), ∃ xs, frameAt buf i = some xs := by
    intro i hi
    refine frameAt_some_of_lt buf i (fun ch hch => ?_)
    have h1 := hb ch hch
    have h2 := List.mem_range.mp hi
    omega
  obtain ⟨outs, ho⟩ := framesLoop_some st.params buf _ hall
  rcases hr : framesLoop st.params buf (List.range (numSamples buf)) with ⟨o, c⟩
  rw [hr] at ho
  simp only at ho
  subst ho
  refine ⟨(st, writeBackBuf outs buf 0, ProcessStatus.normal), ?_⟩
  rw [process, hr]
  rfl

theorem C1_process_never_faults_witness :
    ∃ out, process ⟨defaultParams⟩ 48000 [[1, 2], [3, 4]] = some out :=
  C1_process_never_faults ⟨defaultParams⟩ 48000 [[1, 2], [3, 4]] (by decide) (by decide)

/-- C2: the claim that a degenerate snapshot (low cutoff equal to the high
cutoff) passes the input through unchanged fails on the code: at
`low_freq_cutoff = high_freq_cutoff = 1/4` Hz the code still builds the band
`[low, low + 300]` from the low cutoff alone (the high cutoff is ignored), the
clamped band `[1/4, 1/2]` at the hardcoded 1.0 Hz design rate is
non-degenerate, and the mono block `[1]` comes back as `[16/1369]`, which is
not the input. -/
theorem C2_degenerate_cutoffs_not_identity :
    process ⟨⟨1/4, 1/4, 20⟩⟩ 48000 [[1]] =
      some (⟨⟨1/4, 1/4, 20⟩⟩, [[16/1369]], ProcessStatus.normal) ∧
    ((16 : ℚ)/1369) ≠ 1 := by decide

/-- C3: the claim that each channel is filtered independently over its own
sample sequence fails on the code: `buffer.iter_samples()` yields per-index
channel vectors, so the filter runs across the channels of each frame.  With
`low_freq_cutoff = 1/4` Hz, changing only channel 1 of the stereo block
(channel 0 is `[1, 0]` in both) changes channel 0 of the output. -/
theorem C3_cross_channel_dependence :
    (process ⟨⟨1/4, 3400, 20⟩⟩ 48000 [[1, 0], [0, 0]]).map (fun r => r.2.1.headD []) ≠
    (process ⟨⟨1/4, 3400, 20⟩⟩ 48000 [[1, 0], [1, 0]]).map (fun r => r.2.1.headD []) := by
  decide

/-- C4: the claim that the filter is designed at the host-supplied sample rate
fails on the code: the call `Filter::new(1, 1.0, ...)` hardcodes the design
rate 1.0 (the `buffer_config.sample_rate` argument is commented out), so the
result of `process` does not depend on the host rate at all, while the
designer itself produces different filters at 48000 Hz and at 1.0 Hz for the
very passband the defaults request. -/
theorem C4_host_sample_rate_ignored :
    (∀ sr : ℚ, process ⟨defaultParams⟩ sr [[1, 2]] = process ⟨defaultParams⟩ 1 [[1, 2]]) ∧
    Filter.new 1 48000 (Cutoff.bandPass 300 600) ≠ Filter.new 1 1 (Cutoff.bandPass 300 600) :=
  ⟨fun _ => rfl, by decide⟩

/-- C5: two `process` calls on the same input block with equal
`low_freq_cutoff` values return the same output buffer and status, whatever
the `bands` parameter, the `high_freq_cutoff` parameter, and even the host
sample rate: the code reads nothing but the low cutoff. -/
theorem C5_output_depends_only_on_low_cutoff (st st2 : PluginState) (sr sr2 : ℚ)
    (buf : List (List ℚ))
    (h : st.params.low_freq_cutoff = st2.params.low_freq_cutoff) :
    (process st sr buf).map (fun r => r.2) = (process st2 sr2 buf).map (fun r => r.2) := by
  have hfl := framesLoop_congr st.params st2.params buf h (List.range (numSamples buf))
  rcases hr : framesLoop st.params buf (List.range (numSamples buf)) with ⟨o, c⟩
  rw [process, process, ← hfl, hr]
  cases o <;> rfl

theorem C5_output_depends_only_on_low_cutoff_witness :
    (process ⟨⟨300, 3400, 20⟩⟩ 48000 [[1, 2]]).map (fun r => r.2) =
    (process ⟨⟨300, 100, 7⟩⟩ 44100 [[1, 2]]).map (fun r => r.2) :=
  C5_output_depends_only_on_low_cutoff ⟨⟨300, 3400, 20⟩⟩ ⟨⟨300, 100, 7⟩⟩ 48000 44100
    [[1, 2]] rfl

/-- C6: the claim that coefficients are recomputed only when the passband or
sample rate changed fails on the code: `Filter::new` runs inside the per-frame
loop, so a call on the 3-sample mono block performs 3 coefficient
computations; since the call is also the identity on this block (default
parameters), a second, entirely unchanged call performs 3 further
computations rather than 0. -/
theorem C6_coefficients_recomputed_every_call :
    process ⟨defaultParams⟩ 48000 [[1, 2, 3]] =
      some (⟨defaultParams⟩, [[1, 2, 3]], ProcessStatus.normal) ∧
    processDesignCount ⟨defaultParams⟩ 48000 [[1, 2, 3]] = 3 := by decide

/-- C7: whenever a `process` call returns, the output buffer has exactly the
shape of the input buffer: the same number of channels, each with its original
sample count. -/
theorem C7_output_length_equals_input_length (st : PluginState) (sr : ℚ)
    (buf : List (List ℚ)) (out : PluginState × List (List ℚ) × ProcessStatus)
    (h : process st sr buf = some out) :
    out.2.1.map List.length = buf.map List.length := by
  rw [process] at h
  rcases hr : framesLoop st.params buf (List.range (numSamples buf)) with ⟨o, c⟩
  rw [hr] at h
  cases o with
  | none => exact absurd h (by simp [finishProcess])
  | some outFrames =>
    simp only [finishProcess] at h
    obtain rfl : (st, writeBackBuf outFrames buf 0, ProcessStatus.normal) = out :=
      Option.some.inj h
    obtain ⟨hlen, hall⟩ :=
      framesLoop_sound st.params buf (List.range (numSamples buf)) outFrames (by rw [hr])
    have hbound : ∀ ch ∈ buf, outFrames.length ≤ ch.length := by
      intro ch hch
      rw [List.length_range] at hlen
      cases hn : numSamples buf with
      | zero => omega
      | succ m =>
        obtain ⟨xs, hxs⟩ := hall m (by rw [hn]; exact List.mem_range.mpr (by omega))
        have hm := frameAt_bound buf m xs hxs ch hch
        omega
    exact writeBackBuf_map_length outFrames buf 0 hbound

theorem C7_output_length_equals_input_length_witness :
    process ⟨defaultParams⟩ 48000 [[1, 2]] =
      some (⟨defaultParams⟩, [[1, 2]], ProcessStatus.normal) ∧
    ([[(1 : ℚ), 2]] : List (List ℚ)).map List.length = [[(1 : ℚ), 2]].map List.length :=
  ⟨by decide,
    C7_output_length_equals_input_length ⟨defaultParams⟩ 48000 [[1, 2]]
      (⟨defaultParams⟩, [[1, 2]], ProcessStatus.normal) (by decide)⟩

/-- C8: the claim that a host-contract violation makes `process` return the
designated "unable to process this block" status fails on the code: the code
performs no validation at all.  On mismatched channel lengths the
sample-collection loop reads past the short channel (the call has no defined
result, modelled as `none`: in particular it is not the `Error` status), and
on well-formed blocks the call returns `ProcessStatus::Normal`, the only
status the code ever returns. -/
theorem C8_no_host_contract_validation :
    process ⟨defaultParams⟩ 48000 [[1], []] = none ∧
    process ⟨defaultParams⟩ 48000 [[1], [2]] =
      some (⟨defaultParams⟩, [[1], [2]], ProcessStatus.normal) := by decide

/-- C9: `process` never writes the parameter state: whenever the call returns,
the plugin state it hands back carries exactly the parameter values it was
called with (`low_freq_cutoff`, `high_freq_cutoff` and `bands` unchanged). -/
theorem C9_params_unchanged_by_process (st : PluginState) (sr : ℚ)
    (buf : List (List ℚ)) (out : PluginState × List (List ℚ) × ProcessStatus)
    (h : process st sr buf = some out) : out.1.params = st.params := by
  rw [process] at h
  rcases hr : framesLoop st.params buf (List.range (numSamples buf)) with ⟨o, c⟩
  rw [hr] at h
  cases o with
  | none => exact absurd h (by simp [finishProcess])
  | some outFrames =>
    simp only [finishProcess] at h
    obtain rfl : (st, writeBackBuf outFrames buf 0, ProcessStatus.normal) = out :=
      Option.some.inj h
    rfl

theorem C9_params_unchanged_by_process_witness :
    process ⟨defaultParams⟩ 48000 [[5]] =
      some (⟨defaultParams⟩, [[5]], ProcessStatus.normal) ∧
    ((⟨defaultParams⟩, [[(5 : ℚ)]], ProcessStatus.normal) :
        PluginState × List (List ℚ) × ProcessStatus).1.params =
      (⟨defaultParams⟩ : PluginState).params :=
  ⟨by decide,
    C9_params_unchanged_by_process ⟨defaultParams⟩ 48000 [[5]]
      (⟨defaultParams⟩, [[5]], ProcessStatus.normal) (by decide)⟩

/-- C10: in the write-back loop, every index is in bounds: for every parameter
state and every frame vector, the filter construction and the bidirectional
application succeed, the bidirectional output has exactly the length of the
vector it was given, and writing `filter_res[i]` into `samples_f32[i]` for
every `i` succeeds (producing exactly the filtered frame). -/
theorem C10_write_back_in_bounds (p : StlVocoderParams) (xs : List ℚ) :
    ∃ f res,
      Filter.new 1 1 (Cutoff.bandPass p.low_freq_cutoff (p.low_freq_cutoff + 300)) = some f ∧
      f.bidirectional xs = some res ∧ res.length = xs.length ∧
      writeBack xs res = some res := by
  obtain ⟨f, hf⟩ :=
    filterNew_some 1 1 (Cutoff.bandPass p.low_freq_cutoff (p.low_freq_cutoff + 300))
  obtain ⟨res, hres, hlen⟩ := bidirectional_some f xs
  refine ⟨f, res, hf, hres, hlen, ?_⟩
  rw [writeBack, hlen]
  simp [List.drop_length]

end Vocoder
